import Mathlib

/-!
Shallow embedding of `src/backend/app.py` — the admission-controlled job
queue and worker pool of the scraper service.

Modelling decisions (kept faithful to the Python source):
* Job ids: Python uses `uuid.uuid4().hex` as a fresh-unique-id supply.  We
  model the supply with a counter `nextId`; "generate a fresh unique id"
  becomes "take `nextId` and bump the counter".  Freshness of uuid4 against
  the live store corresponds to the invariant that every stored id is below
  `nextId`.
* The store `jobs : Dict[str, Dict]` is modelled as the map
  `Nat → Option JobRecord` (dict semantics: point update / point delete).
* Timestamps are the ISO strings produced by `_now_iso`; a worker step takes
  the three "now" readings (start, finish, lastUpdated) as inputs.  The
  standard-library call `datetime.fromisoformat(...).total_seconds()` is
  external code and is abstracted by a parameter
  `parse : String → Option Rat` (returning `none` exactly when
  `fromisoformat` raises `ValueError`); `round(x, 3)` on seconds becomes
  `roundMilli` on rationals.
* The opaque JSON value returned by the external Extractor
  (`scrape_as_json`) is modelled as a `String`.
* `asyncio.Queue` is the FIFO list `jobQueue`; `task_done()` calls are
  counted in the worker-step result so that consumption accounting is
  observable.
-/

/-- The five job statuses of the service (`status` field of a record). -/
inductive Status
  | queued
  | running
  | succeeded
  | failed
  | cancelled
deriving DecidableEq

/-- Terminal-status test, from `app.py` line 69:
`record.get("status") in ("succeeded", "failed", "cancelled")` written as a
set literal in the source. -/
def Status.isTerminal : Status → Bool
  | .succeeded => true
  | .failed => true
  | .cancelled => true
  | _ => false

/-- One job record, the value stored in `jobs[job_id]`.  Fields created at
enqueue time (`app.py` lines 163-171) start as `none` where the dict holds
`None`; fields first assigned by the worker are `Option`s that start absent. -/
structure JobRecord where
  status : Status
  submittedAt : String
  startedAt : Option String := none
  finishedAt : Option String := none
  result : Option String := none
  error : Option String := none
  queueSizeOnEnqueue : Nat
  assignedWorker : Option Nat := none
  queueSizeWhenStarted : Option Nat := none
  durationSeconds : Option Rat := none
  lastUpdated : Option String := none
deriving DecidableEq

/-- The `JobPayload` dataclass (`app.py` lines 19-24). -/
structure JobPayload where
  job_id : Nat
  email : String
  password : String
  exclude_nickname : String
deriving DecidableEq

/-- The module-level mutable state of `app.py` (lines 51-54) plus the
fresh-id counter modelling the uuid4 supply. -/
structure ServerState where
  jobQueue : List JobPayload
  jobs : Nat → Option JobRecord
  jobHistory : List Nat
  nextId : Nat

/-- Point update of the store, modelling `jobs[job_id] = record`. -/
def setJob (jobs : Nat → Option JobRecord) (id : Nat) (r : JobRecord) :
    Nat → Option JobRecord :=
  fun i => if i = id then some r else jobs i

/-- Point delete of the store, modelling `jobs.pop(oldest_id, None)`. -/
def popJob (jobs : Nat → Option JobRecord) (id : Nat) :
    Nat → Option JobRecord :=
  fun i => if i = id then none else jobs i

/-- The `while` loop body of `_prune_history` (`app.py` lines 66-73):
while the history is longer than the maximum, inspect the oldest id; if its
record exists and is terminal, pop it from both history and store and loop;
otherwise stop. -/
def pruneLoop (maxHistory : Nat) :
    List Nat → (Nat → Option JobRecord) → List Nat × (Nat → Option JobRecord)
  | [], jobs => ([], jobs)
  | oldest :: rest, jobs =>
    if (oldest :: rest).length > maxHistory then
      match jobs oldest with
      | some r =>
        if r.status.isTerminal then
          pruneLoop maxHistory rest (popJob jobs oldest)
        else
          (oldest :: rest, jobs)
      | none => (oldest :: rest, jobs)
    else
      (oldest :: rest, jobs)

/-- `_prune_history` (`app.py` lines 63-73).  `MAX_HISTORY` is
`max(0, int(env))`, hence a `Nat`; the guard `MAX_HISTORY <= 0` is the
zero test. -/
def _prune_history (maxHistory : Nat) (hist : List Nat)
    (jobs : Nat → Option JobRecord) : List Nat × (Nat → Option JobRecord) :=
  if maxHistory = 0 then (hist, jobs) else pruneLoop maxHistory hist jobs

/-- Result of `POST /api/scrape` on the success path
(`app.py` lines 177-183). -/
structure EnqueueOk where
  jobId : Nat
  status : Status
  submittedAt : String
  queueSize : Nat
  maxConcurrency : Nat
deriving DecidableEq

/-- Result of `enqueue_scrape`: either an `HTTPException(status_code, detail)`
or the success dict. -/
inductive EnqueueResult
  | httpError (statusCode : Nat) (detail : String)
  | ok (resp : EnqueueOk)
deriving DecidableEq

/-- Python's `str.strip()` (no argument): drop leading and trailing
whitespace characters. -/
def pyStrip (s : String) : String :=
  String.mk (((s.data.dropWhile Char.isWhitespace).reverse.dropWhile
    Char.isWhitespace).reverse)

/-- `enqueue_scrape` (`app.py` lines 148-183).  `emailRaw`/`excludeRaw` are
stripped (`.strip()` ~ `pyStrip`); the password is only defaulted
(`payload.password or ""`), never stripped, exactly as in the source.
`now` is the `_now_iso()` reading at submission. -/
def enqueue_scrape (maxWorkers queueLimit maxHistory : Nat)
    (emailRaw passwordRaw excludeRaw now : String) (s : ServerState) :
    EnqueueResult × ServerState :=
  let email := pyStrip emailRaw
  let password := passwordRaw
  let exclude := pyStrip excludeRaw
  if email = "" ∨ password = "" ∨ exclude = "" then
    (.httpError 422 "Email, password, and nickname are required.", s)
  else
    let pending := s.jobQueue.length
    if queueLimit ≠ 0 ∧ pending ≥ queueLimit then
      (.httpError 429 "Scraper queue is currently full. Please retry in a moment.", s)
    else
      let jobId := s.nextId
      let rec0 : JobRecord :=
        { status := .queued
          submittedAt := now
          startedAt := none
          finishedAt := none
          result := none
          error := none
          queueSizeOnEnqueue := pending }
      let jobs1 := setJob s.jobs jobId rec0
      let hist1 := s.jobHistory ++ [jobId]
      let pruned := _prune_history maxHistory hist1 jobs1
      let queue2 := s.jobQueue ++ [⟨jobId, email, password, exclude⟩]
      (.ok { jobId := jobId
             status := .queued
             submittedAt := now
             queueSize := queue2.length
             maxConcurrency := maxWorkers },
       { jobQueue := queue2
         jobs := pruned.2
         jobHistory := pruned.1
         nextId := s.nextId + 1 })

/-- Rounding of a rational to the nearest integer (floor of `q + 1/2`),
written on the numerator and denominator so that it evaluates inside the
kernel. -/
def ratRound (q : Rat) : Int := Int.fdiv (2 * q.num + (q.den : Int)) (2 * (q.den : Int))

/-- Rounding of a duration in seconds to millisecond precision, modelling
`round((finish_dt - start_dt).total_seconds(), 3)`.  Ties round up; Python's
float tie behavior is immaterial here since no claim exercises a tie. -/
def roundMilli (q : Rat) : Rat := ((ratRound (q * 1000) : Int) : Rat) / 1000

/-- The `finally` block of the worker loop up to the `task_done` call
(`app.py` lines 115-125): if both timestamps are present and non-empty
(Python truthiness of the strings), try to parse both; on success store the
rounded duration, on `ValueError` store nothing; then set `lastUpdated`. -/
def finalizeRecord (parse : String → Option Rat) (tLast : String)
    (r : JobRecord) : JobRecord :=
  let r1 :=
    match r.startedAt, r.finishedAt with
    | some sa, some fa =>
      if sa = "" ∨ fa = "" then r
      else
        match parse sa, parse fa with
        | some sSec, some fSec =>
          { r with durationSeconds := some (roundMilli (fSec - sSec)) }
        | _, _ => r
    | _, _ => r
  { r1 with lastUpdated := some tLast }

/-- Outcome of `await job_queue.get()`: an item arrives, or the wait is
interrupted by `asyncio.CancelledError` at shutdown. -/
inductive GetOutcome
  | item
  | cancelledWait
deriving DecidableEq

/-- Outcome of `await scrape_as_json(...)` (the external Extractor): a normal
return, an ordinary exception with message, or `asyncio.CancelledError`. -/
inductive ExtractOutcome
  | ok (v : String)
  | exn (msg : String)
  | cancelled
deriving DecidableEq

/-- How one iteration of `worker_loop` ends: fall through to the next
iteration, `break` out of the loop (cancellation while waiting on the queue),
re-`raise` the cancellation (loop terminates by propagation), or block on an
empty queue (the iteration never completes). -/
inductive WorkerExit
  | continueLoop
  | breakLoop
  | propagateCancel
  | blockedOnGet
deriving DecidableEq

/-- Observable result of one `worker_loop` iteration: the new shared state,
how the loop continues, the number of `job_queue.task_done()` calls made
during the iteration, and the final content of the `record` local (absent
when no record was looked up). -/
structure WorkerStepResult where
  state : ServerState
  exit : WorkerExit
  taskDoneCalls : Nat
  finalRecord : Option JobRecord

/-- One iteration of `worker_loop` (`app.py` lines 76-127).

Control flow of the source: `get` raising `CancelledError` breaks the loop;
a missing record consumes the item and continues; otherwise the record is
moved to `running` (lines 89-92) and the Extractor is called.  The
`cancelled` outcome runs the `except CancelledError` clause — which calls
`task_done()` at line 104 and re-raises — and then the `finally` block still
runs (duration, `lastUpdated`, a second `task_done()` at line 126, prune)
before the cancellation propagates.  The `exn` and `ok` outcomes run their
handler and then the `finally` block once. -/
def worker_loop (maxHistory : Nat) (get : GetOutcome) (outcome : ExtractOutcome)
    (parse : String → Option Rat) (tStart tFinish tLast : String)
    (workerIndex : Nat) (s : ServerState) : WorkerStepResult :=
  match get with
  | .cancelledWait => ⟨s, .breakLoop, 0, none⟩
  | .item =>
    match s.jobQueue with
    | [] => ⟨s, .blockedOnGet, 0, none⟩
    | p :: rest =>
      let s1 : ServerState := { s with jobQueue := rest }
      match s1.jobs p.job_id with
      | none => ⟨s1, .continueLoop, 1, none⟩
      | some r0 =>
        let r1 : JobRecord :=
          { r0 with status := .running
                    startedAt := some tStart
                    assignedWorker := some workerIndex
                    queueSizeWhenStarted := some rest.length }
        match outcome with
        | .cancelled =>
          let r2 : JobRecord :=
            { r1 with status := .cancelled
                      error := some "Worker stopped during execution"
                      finishedAt := some tFinish }
          let r3 := finalizeRecord parse tLast r2
          let jobs2 := setJob s1.jobs p.job_id r3
          let pruned := _prune_history maxHistory s1.jobHistory jobs2
          ⟨{ s1 with jobs := pruned.2, jobHistory := pruned.1 },
           .propagateCancel, 2, some r3⟩
        | .exn msg =>
          let r2 : JobRecord :=
            { r1 with status := .failed
                      error := some msg
                      finishedAt := some tFinish }
          let r3 := finalizeRecord parse tLast r2
          let jobs2 := setJob s1.jobs p.job_id r3
          let pruned := _prune_history maxHistory s1.jobHistory jobs2
          ⟨{ s1 with jobs := pruned.2, jobHistory := pruned.1 },
           .continueLoop, 1, some r3⟩
        | .ok v =>
          let r2 : JobRecord :=
            { r1 with result := some v
                      status := .succeeded
                      error := none
                      finishedAt := some tFinish }
          let r3 := finalizeRecord parse tLast r2
          let jobs2 := setJob s1.jobs p.job_id r3
          let pruned := _prune_history maxHistory s1.jobHistory jobs2
          ⟨{ s1 with jobs := pruned.2, jobHistory := pruned.1 },
           .continueLoop, 1, some r3⟩

/-- A value in a job snapshot returned by `GET /api/jobs/...`: the record
fields are strings, naturals, a rational duration, or a status. -/
inductive SnapVal
  | str (v : String)
  | nat (v : Nat)
  | rat (v : Rat)
  | stat (v : Status)
deriving DecidableEq

/-- Projection of an optional record field into the snapshot: present keys
only, `None`-valued keys omitted (`app.py` line 192). -/
def optField (k : String) (f : α → SnapVal) : Option α → List (String × SnapVal)
  | some v => [(k, f v)]
  | none => []

/-- The filtered view `{key: value for ... if value is not None}` of a
record, in the dict insertion order of the source. -/
def snapshotFields (r : JobRecord) : List (String × SnapVal) :=
  [("status", SnapVal.stat r.status), ("submittedAt", SnapVal.str r.submittedAt)]
    ++ optField "startedAt" SnapVal.str r.startedAt
    ++ optField "finishedAt" SnapVal.str r.finishedAt
    ++ optField "result" SnapVal.str r.result
    ++ optField "error" SnapVal.str r.error
    ++ [("queueSizeOnEnqueue", SnapVal.nat r.queueSizeOnEnqueue)]
    ++ optField "assignedWorker" SnapVal.nat r.assignedWorker
    ++ optField "queueSizeWhenStarted" SnapVal.nat r.queueSizeWhenStarted
    ++ optField "durationSeconds" SnapVal.rat r.durationSeconds
    ++ optField "lastUpdated" SnapVal.str r.lastUpdated

/-- `get_job` (`app.py` lines 186-195): 404 when the id is not in the store,
otherwise the non-`None` record fields plus `jobId` and the current queue
depth. -/
def get_job (jobId : Nat) (s : ServerState) :
    Except (Nat × String) (List (String × SnapVal)) :=
  match s.jobs jobId with
  | none => .error (404, "Job not found.")
  | some r =>
    .ok (snapshotFields r ++
      [("jobId", SnapVal.nat jobId), ("queueSize", SnapVal.nat s.jobQueue.length)])

/-! Helper lemmas about the pruning loop. -/

/-- Pruning never re-creates a store entry: a missing id stays missing. -/
theorem pruneLoop_none_mono (m : Nat) (hist : List Nat)
    (jobs : Nat → Option JobRecord) (id : Nat) (h : jobs id = none) :
    (pruneLoop m hist jobs).2 id = none := by
  induction hist generalizing jobs with
  | nil => simpa [pruneLoop] using h
  | cons oldest rest ih =>
    simp only [pruneLoop]
    by_cases hlen : (oldest :: rest).length > m
    · rw [if_pos hlen]
      cases hj : jobs oldest with
      | none => simpa using h
      | some r =>
        by_cases ht : r.status.isTerminal
        · simp only [ht, if_true]
          exact ih _ (by simp [popJob, h])
        · simpa [ht] using h
    · rw [if_neg hlen]
      simpa using h

/-- Pruning only removes entries: a surviving store binding was already
there, with the same record. -/
theorem pruneLoop_submap (m : Nat) (hist : List Nat)
    (jobs : Nat → Option JobRecord) (id : Nat) (r : JobRecord)
    (h : (pruneLoop m hist jobs).2 id = some r) : jobs id = some r := by
  induction hist generalizing jobs with
  | nil => simpa [pruneLoop] using h
  | cons oldest rest ih =>
    simp only [pruneLoop] at h
    by_cases hlen : (oldest :: rest).length > m
    · rw [if_pos hlen] at h
      cases hj : jobs oldest with
      | none => rw [hj] at h; simpa using h
      | some r0 =>
        rw [hj] at h
        by_cases ht : r0.status.isTerminal
        · simp only [ht, if_true] at h
          have h2 := ih _ h
          simp only [popJob] at h2
          by_cases hid : id = oldest
          · rw [if_pos hid] at h2; exact absurd h2 (by simp)
          · rwa [if_neg hid] at h2
        · simpa [ht] using h
    · rw [if_neg hlen] at h
      simpa using h

/-- A non-terminal record survives pruning, in store and in history. -/
theorem pruneLoop_keeps_nonterminal (m : Nat) (hist : List Nat)
    (jobs : Nat → Option JobRecord) (id : Nat) (r : JobRecord)
    (h : jobs id = some r) (hnt : r.status.isTerminal = false) :
    (pruneLoop m hist jobs).2 id = some r ∧
      (id ∈ hist → id ∈ (pruneLoop m hist jobs).1) := by
  induction hist generalizing jobs with
  | nil => simp [pruneLoop, h]
  | cons oldest rest ih =>
    simp only [pruneLoop]
    by_cases hlen : (oldest :: rest).length > m
    · rw [if_pos hlen]
      cases hj : jobs oldest with
      | none => simp [h]
      | some r0 =>
        by_cases ht : r0.status.isTerminal
        · have hid : id ≠ oldest := by
            intro he
            rw [he, hj] at h
            cases h
            rw [ht] at hnt
            simp at hnt
          simp only [ht, if_true]
          have hpop : popJob jobs oldest id = some r := by
            simp [popJob, hid, h]
          have := ih _ hpop
          exact ⟨this.1, fun hm => this.2 (by
            cases List.mem_cons.mp hm with
            | inl he => exact absurd he hid
            | inr hr => exact hr)⟩
        · simp [ht, h]
    · rw [if_neg hlen]
      simp [h]

/-- Pruning evicts only from the front of history: the surviving history is
a drop of the original. -/
theorem pruneLoop_drop (m : Nat) (hist : List Nat)
    (jobs : Nat → Option JobRecord) :
    ∃ k, (pruneLoop m hist jobs).1 = hist.drop k := by
  induction hist generalizing jobs with
  | nil => exact ⟨0, rfl⟩
  | cons oldest rest ih =>
    simp only [pruneLoop]
    by_cases hlen : (oldest :: rest).length > m
    · rw [if_pos hlen]
      cases hj : jobs oldest with
      | none => exact ⟨0, rfl⟩
      | some r0 =>
        by_cases ht : r0.status.isTerminal
        · simp only [ht, if_true]
          obtain ⟨k, hk⟩ := ih (popJob jobs oldest)
          exact ⟨k + 1, by simpa using hk⟩
        · simp only [ht]
          exact ⟨0, rfl⟩
    · rw [if_neg hlen]
      exact ⟨0, rfl⟩

/-- Pruning does nothing while the history is within the bound. -/
theorem pruneLoop_short (m : Nat) (hist : List Nat)
    (jobs : Nat → Option JobRecord) (h : hist.length ≤ m) :
    pruneLoop m hist jobs = (hist, jobs) := by
  cases hist with
  | nil => rfl
  | cons oldest rest =>
    simp only [pruneLoop]
    rw [if_neg (by omega)]

/-- Whatever pruning removes from history was a terminal record, and it is
removed from the store as well. -/
theorem pruneLoop_removed_terminal (m : Nat) (hist : List Nat)
    (jobs : Nat → Option JobRecord) (id : Nat)
    (hin : id ∈ hist) (hout : id ∉ (pruneLoop m hist jobs).1) :
    ∃ r, jobs id = some r ∧ r.status.isTerminal = true ∧
      (pruneLoop m hist jobs).2 id = none := by
  induction hist generalizing jobs with
  | nil => cases hin
  | cons oldest rest ih =>
    simp only [pruneLoop] at hout ⊢
    by_cases hlen : (oldest :: rest).length > m
    · rw [if_pos hlen] at hout ⊢
      cases hj : jobs oldest with
      | none =>
        rw [hj] at hout
        exact absurd hin (by simpa using hout)
      | some r0 =>
        rw [hj] at hout
        by_cases ht : r0.status.isTerminal
        · simp only [ht, if_true] at hout ⊢
          by_cases hid : id = oldest
          · subst hid
            exact ⟨r0, hj, ht, pruneLoop_none_mono _ _ _ _ (by simp [popJob])⟩
          · have hin' : id ∈ rest := by
              cases List.mem_cons.mp hin with
              | inl he => exact absurd he hid
              | inr hr => exact hr
            obtain ⟨r, hr, hrt, hnone⟩ := ih (popJob jobs oldest) hin' hout
            refine ⟨r, ?_, hrt, hnone⟩
            simpa [popJob, hid] using hr
        · simp only [ht] at hout
          exact absurd hin (by simpa using hout)
    · rw [if_neg hlen] at hout
      exact absurd hin (by simpa using hout)

/-- Pruning keeps the store keys and the history ids in bijection: if they
agree before (and history has no duplicates), they agree after. -/
theorem pruneLoop_keysEq (m : Nat) (hist : List Nat)
    (jobs : Nat → Option JobRecord)
    (hkeys : ∀ i, (jobs i).isSome ↔ i ∈ hist) (hnd : hist.Nodup) :
    ∀ i, (((pruneLoop m hist jobs).2) i).isSome ↔
      i ∈ (pruneLoop m hist jobs).1 := by
  induction hist generalizing jobs with
  | nil => simpa [pruneLoop] using hkeys
  | cons oldest rest ih =>
    simp only [pruneLoop]
    by_cases hlen : (oldest :: rest).length > m
    · rw [if_pos hlen]
      cases hj : jobs oldest with
      | none => simpa using hkeys
      | some r0 =>
        by_cases ht : r0.status.isTerminal
        · simp only [ht, if_true]
          have hndr := (List.nodup_cons.mp hnd).2
          have hno := (List.nodup_cons.mp hnd).1
          refine ih (popJob jobs oldest) ?_ hndr
          intro i
          by_cases hid : i = oldest
          · subst hid
            simp [popJob, hno]
          · simp only [popJob, if_neg hid]
            rw [hkeys i]
            simp [List.mem_cons, hid]
        · simpa [ht] using hkeys
    · rw [if_neg hlen]
      simpa using hkeys

/-! Wrappers of the loop lemmas at the level of `_prune_history`. -/

/-- `_prune_history` never re-creates a store entry. -/
theorem prune_none_mono (m : Nat) (hist : List Nat)
    (jobs : Nat → Option JobRecord) (id : Nat) (h : jobs id = none) :
    (_prune_history m hist jobs).2 id = none := by
  unfold _prune_history
  split
  · exact h
  · exact pruneLoop_none_mono m hist jobs id h

/-- `_prune_history` only removes entries. -/
theorem prune_submap (m : Nat) (hist : List Nat)
    (jobs : Nat → Option JobRecord) (id : Nat) (r : JobRecord)
    (h : (_prune_history m hist jobs).2 id = some r) : jobs id = some r := by
  unfold _prune_history at h
  split at h
  · exact h
  · exact pruneLoop_submap m hist jobs id r h

/-- A non-terminal record survives `_prune_history`. -/
theorem prune_keeps_nonterminal (m : Nat) (hist : List Nat)
    (jobs : Nat → Option JobRecord) (id : Nat) (r : JobRecord)
    (h : jobs id = some r) (hnt : r.status.isTerminal = false) :
    (_prune_history m hist jobs).2 id = some r ∧
      (id ∈ hist → id ∈ (_prune_history m hist jobs).1) := by
  unfold _prune_history
  split
  · exact ⟨h, fun hm => hm⟩
  · exact pruneLoop_keeps_nonterminal m hist jobs id r h hnt

/-- `_prune_history` leaves a suffix of the original history. -/
theorem prune_drop (m : Nat) (hist : List Nat)
    (jobs : Nat → Option JobRecord) :
    ∃ k, (_prune_history m hist jobs).1 = hist.drop k := by
  unfold _prune_history
  split
  · exact ⟨0, rfl⟩
  · exact pruneLoop_drop m hist jobs

/-- `_prune_history` is inert while the history is within the bound. -/
theorem prune_short (m : Nat) (hist : List Nat)
    (jobs : Nat → Option JobRecord) (h : hist.length ≤ m) :
    _prune_history m hist jobs = (hist, jobs) := by
  unfold _prune_history
  split
  · rfl
  · exact pruneLoop_short m hist jobs h

/-- Ids evicted by `_prune_history` had terminal records and are gone from
the store. -/
theorem prune_removed_terminal (m : Nat) (hist : List Nat)
    (jobs : Nat → Option JobRecord) (id : Nat)
    (hin : id ∈ hist) (hout : id ∉ (_prune_history m hist jobs).1) :
    ∃ r, jobs id = some r ∧ r.status.isTerminal = true ∧
      (_prune_history m hist jobs).2 id = none := by
  by_cases hm : m = 0
  · unfold _prune_history at hout
    rw [if_pos hm] at hout
    exact absurd hin hout
  · unfold _prune_history at hout ⊢
    rw [if_neg hm] at hout ⊢
    exact pruneLoop_removed_terminal m hist jobs id hin hout

/-- `_prune_history` keeps store keys and history ids in bijection. -/
theorem prune_keysEq (m : Nat) (hist : List Nat)
    (jobs : Nat → Option JobRecord)
    (hkeys : ∀ i, (jobs i).isSome ↔ i ∈ hist) (hnd : hist.Nodup) :
    ∀ i, (((_prune_history m hist jobs).2) i).isSome ↔
      i ∈ (_prune_history m hist jobs).1 := by
  unfold _prune_history
  split
  · exact hkeys
  · exact pruneLoop_keysEq m hist jobs hkeys hnd

/-- `finalizeRecord` only touches `durationSeconds` and `lastUpdated`. -/
theorem finalizeRecord_fields (parse : String → Option Rat) (t : String)
    (r : JobRecord) :
    (finalizeRecord parse t r).status = r.status ∧
    (finalizeRecord parse t r).result = r.result ∧
    (finalizeRecord parse t r).error = r.error ∧
    (finalizeRecord parse t r).startedAt = r.startedAt ∧
    (finalizeRecord parse t r).finishedAt = r.finishedAt ∧
    (finalizeRecord parse t r).submittedAt = r.submittedAt ∧
    (finalizeRecord parse t r).lastUpdated = some t := by
  unfold finalizeRecord
  rcases hs : r.startedAt with _ | sa <;> rcases hf : r.finishedAt with _ | fa <;>
    simp only [hs, hf]
  case none.none => simp
  case none.some => simp
  case some.none => simp
  case some.some =>
    by_cases he : sa = "" ∨ fa = ""
    · simp [he, hs, hf]
    · rcases hps : parse sa with _ | v1 <;> rcases hpf : parse fa with _ | v2 <;>
        simp [he, hs, hf, hps, hpf]

/-! Concrete sample states for instantiating theorems. -/

/-- The empty server state at process start. -/
def initState : ServerState :=
  { jobQueue := [], jobs := fun _ => none, jobHistory := [], nextId := 0 }

/-- A sample record still in the `queued` state. -/
def recQueued : JobRecord :=
  { status := .queued, submittedAt := "t0", queueSizeOnEnqueue := 0 }

/-- A sample record in the terminal `succeeded` state. -/
def recDone : JobRecord :=
  { status := .succeeded, submittedAt := "t0", queueSizeOnEnqueue := 0 }

/-- A state holding one queued job (id 0) whose payload is still pending. -/
def oneJobState : ServerState :=
  { jobQueue := [⟨0, "a", "b", "c"⟩]
    jobs := fun i => if i = 0 then some recQueued else none
    jobHistory := [0]
    nextId := 1 }

/-- A store with a terminal record at id 0 and a queued record at id 1. -/
def jobsC2 : Nat → Option JobRecord :=
  fun i => if i = 0 then some recDone else if i = 1 then some recQueued else none

/-- A timestamp reading under which no string parses as a datetime. -/
def parse0 : String → Option Rat := fun _ => none

/-- When the pruning loop stops with the surviving history still over the
bound, the record at its front is missing or non-terminal: the loop never
stops while the oldest retained entry is a terminal record. -/
theorem pruneLoop_stuck_front (m : Nat) (hist : List Nat)
    (jobs : Nat → Option JobRecord) (oldest : Nat) (rest2 : List Nat)
    (hres : (pruneLoop m hist jobs).1 = oldest :: rest2)
    (hlen : (oldest :: rest2).length > m) :
    ∀ r, (pruneLoop m hist jobs).2 oldest = some r →
      r.status.isTerminal = false := by
  induction hist generalizing jobs with
  | nil => exact absurd hres (by simp [pruneLoop])
  | cons h t ih =>
    by_cases hl : (h :: t).length > m
    · cases hj : jobs h with
      | none =>
        have heq : pruneLoop m (h :: t) jobs = (h :: t, jobs) := by
          simp only [pruneLoop]
          rw [if_pos hl, hj]
        rw [heq] at hres ⊢
        intro r hr
        have hr2 : jobs oldest = some r := hr
        injection hres with h1 h2
        rw [← h1, hj] at hr2
        cases hr2
      | some r0 =>
        by_cases ht : r0.status.isTerminal
        · have heq : pruneLoop m (h :: t) jobs =
              pruneLoop m t (popJob jobs h) := by
            simp only [pruneLoop]
            rw [if_pos hl, hj]
            simp only [ht, if_true]
          rw [heq] at hres ⊢
          exact ih (popJob jobs h) hres
        · have heq : pruneLoop m (h :: t) jobs = (h :: t, jobs) := by
            simp only [pruneLoop]
            rw [if_pos hl, hj]
            simp [ht]
          rw [heq] at hres ⊢
          intro r hr
          have hr2 : jobs oldest = some r := hr
          injection hres with h1 h2
          rw [← h1, hj] at hr2
          injection hr2 with h3
          rw [← h3]
          simpa using ht
    · have heq : pruneLoop m (h :: t) jobs = (h :: t, jobs) := by
        simp only [pruneLoop]
        rw [if_neg hl]
      rw [heq] at hres ⊢
      injection hres with h1 h2
      subst h1
      subst h2
      exact absurd hlen hl

/-- C2: on every invocation, `_prune_history` does nothing when the
configured maximum is zero; does nothing while the retained count does not
exceed the maximum; never deletes a record that is still non-terminal
(`queued` or `running`), neither from the store nor from history; evicts
only from the front of history (the survivors are a suffix, so history is
never reordered); every id it does evict had a terminal record and is
removed from both the store and history; the retained count exceeds a
positive maximum after the call only when the oldest surviving entry is
blocked (its record missing or non-terminal); and while the count exceeds a
positive maximum and the oldest entry is a terminal record, the pruner
removes that entry from both the store and history and continues.  The last
two conjuncts force eviction to actually happen — a pruner that never
evicts satisfies neither. -/
theorem prune_history_C2 (m : Nat) (hist : List Nat)
    (jobs : Nat → Option JobRecord) :
    (m = 0 → _prune_history m hist jobs = (hist, jobs)) ∧
    (hist.length ≤ m → _prune_history m hist jobs = (hist, jobs)) ∧
    (∀ id r, jobs id = some r → r.status.isTerminal = false →
      (_prune_history m hist jobs).2 id = some r ∧
        (id ∈ hist → id ∈ (_prune_history m hist jobs).1)) ∧
    (∃ k, (_prune_history m hist jobs).1 = hist.drop k) ∧
    (∀ id, id ∈ hist → id ∉ (_prune_history m hist jobs).1 →
      ∃ r, jobs id = some r ∧ r.status.isTerminal = true ∧
        (_prune_history m hist jobs).2 id = none) ∧
    (m ≠ 0 → ∀ oldest rest2, (_prune_history m hist jobs).1 = oldest :: rest2 →
      (oldest :: rest2).length > m →
      ∀ r, (_prune_history m hist jobs).2 oldest = some r →
        r.status.isTerminal = false) ∧
    (m ≠ 0 → ∀ oldest rest2, hist = oldest :: rest2 → hist.length > m →
      ∀ r, jobs oldest = some r → r.status.isTerminal = true →
        _prune_history m hist jobs =
          _prune_history m rest2 (popJob jobs oldest)) := by
  refine ⟨?_, ?_, ?_, ?_, ?_, ?_, ?_⟩
  · intro h0
    unfold _prune_history
    rw [if_pos h0]
  · intro hle
    exact prune_short m hist jobs hle
  · intro id r h hnt
    exact prune_keeps_nonterminal m hist jobs id r h hnt
  · exact prune_drop m hist jobs
  · intro id hin hout
    exact prune_removed_terminal m hist jobs id hin hout
  · intro hm oldest rest2 hres hlen
    unfold _prune_history at hres ⊢
    rw [if_neg hm] at hres ⊢
    exact pruneLoop_stuck_front m hist jobs oldest rest2 hres hlen
  · intro hm oldest rest2 hh hlen r hr ht
    subst hh
    unfold _prune_history
    rw [if_neg hm, if_neg hm]
    simp only [pruneLoop]
    rw [if_pos hlen, hr]
    simp only [ht, if_true]

/-- Witness for the pruner theorem: a two-entry history over bound 1 whose
oldest record is terminal; the eviction-step conjunct fires (the terminal
record at id 0 is evicted from both structures) and the queued record at
id 1 survives. -/
theorem prune_history_C2_witness :
    jobsC2 0 = some recDone ∧
    recDone.status.isTerminal = true ∧
    ([0, 1] : List Nat).length > 1 ∧
    _prune_history 1 [0, 1] jobsC2 = _prune_history 1 [1] (popJob jobsC2 0) ∧
    (_prune_history 1 [0, 1] jobsC2).1 = [1] ∧
    (_prune_history 1 [0, 1] jobsC2).2 0 = none ∧
    jobsC2 1 = some recQueued ∧
    recQueued.status.isTerminal = false ∧
    (_prune_history 1 [0, 1] jobsC2).2 1 = some recQueued ∧
    (1 ∈ ([0, 1] : List Nat) → 1 ∈ (_prune_history 1 [0, 1] jobsC2).1) :=
  ⟨rfl, rfl, by decide,
    (prune_history_C2 1 [0, 1] jobsC2).2.2.2.2.2.2 (by decide) 0 [1] rfl
      (by decide) recDone rfl rfl,
    by decide, by decide, rfl, rfl,
    ((prune_history_C2 1 [0, 1] jobsC2).2.2.1 1 recQueued rfl rfl).1,
    ((prune_history_C2 1 [0, 1] jobsC2).2.2.1 1 recQueued rfl rfl).2⟩

/-- C4 counterexample: per the claim a whitespace-only password is blank and
must be rejected with 422 and no state mutation; the code accepts it (the
password is never stripped), returns the success receipt, and creates a
record. -/
theorem enqueue_blank_password_C4_cex :
    (enqueue_scrape 5 50 200 "a" " " "b" "t0" initState).1 =
      .ok { jobId := 0, status := .queued, submittedAt := "t0",
            queueSize := 1, maxConcurrency := 5 } ∧
    (enqueue_scrape 5 50 200 "a" " " "b" "t0" initState).2.jobs 0 ≠ none := by
  exact ⟨by decide, by decide⟩

/-- C4 (amended): a submission is rejected with the 422 validation error and
no state mutation exactly when the stripped email is empty, or the password
is missing/empty (a whitespace-only password passes), or the stripped
nickname is empty. -/
theorem enqueue_validation_C4 (maxWorkers queueLimit maxHistory : Nat)
    (emailRaw passwordRaw excludeRaw now : String) (s : ServerState)
    (h : pyStrip emailRaw = "" ∨ passwordRaw = "" ∨ pyStrip excludeRaw = "") :
    enqueue_scrape maxWorkers queueLimit maxHistory
        emailRaw passwordRaw excludeRaw now s =
      (.httpError 422 "Email, password, and nickname are required.", s) := by
  simp only [enqueue_scrape]
  rw [if_pos h]

/-- Witness for the amended validation theorem at a blank email. -/
theorem enqueue_validation_C4_witness :
    (pyStrip " " = "" ∨ "b" = "" ∨ pyStrip "c" = "") ∧
    enqueue_scrape 5 50 200 " " "b" "c" "t0" initState =
      (.httpError 422 "Email, password, and nickname are required.", initState) :=
  ⟨Or.inl (by decide),
    enqueue_validation_C4 5 50 200 " " "b" "c" "t0" initState (Or.inl (by decide))⟩

/-- C5 counterexample: with limit 1 and depth 1 (at the limit), a submission
with a blank email is rejected with the 422 validation error, not the 429
capacity error the claim requires for every submission arriving at a full
queue. -/
theorem enqueue_full_queue_C5_cex :
    oneJobState.jobQueue.length ≥ 1 ∧
    (enqueue_scrape 5 1 200 "" "b" "c" "t0" oneJobState).1 =
      .httpError 422 "Email, password, and nickname are required." ∧
    (enqueue_scrape 5 1 200 "" "b" "c" "t0" oneJobState).1 ≠
      .httpError 429 "Scraper queue is currently full. Please retry in a moment." := by
  exact ⟨by decide, by decide, by decide⟩

/-- C5 (amended): a submission whose required fields pass validation,
arriving when a non-zero queue limit is configured and the queue depth is at
or above it, is rejected with the 429 capacity error and no state mutation. -/
theorem enqueue_capacity_C5 (maxWorkers queueLimit maxHistory : Nat)
    (emailRaw passwordRaw excludeRaw now : String) (s : ServerState)
    (hE : pyStrip emailRaw ≠ "") (hP : passwordRaw ≠ "")
    (hX : pyStrip excludeRaw ≠ "")
    (hL : queueLimit ≠ 0) (hD : s.jobQueue.length ≥ queueLimit) :
    enqueue_scrape maxWorkers queueLimit maxHistory
        emailRaw passwordRaw excludeRaw now s =
      (.httpError 429 "Scraper queue is currently full. Please retry in a moment.", s) := by
  simp only [enqueue_scrape]
  rw [if_neg (not_or.mpr ⟨hE, not_or.mpr ⟨hP, hX⟩⟩), if_pos ⟨hL, hD⟩]

/-- Witness for the capacity theorem: limit 1 with one pending payload. -/
theorem enqueue_capacity_C5_witness :
    pyStrip "a" ≠ "" ∧ (1 : Nat) ≠ 0 ∧ oneJobState.jobQueue.length ≥ 1 ∧
    enqueue_scrape 5 1 200 "a" "b" "c" "t0" oneJobState =
      (.httpError 429 "Scraper queue is currently full. Please retry in a moment.",
        oneJobState) :=
  ⟨by decide, by decide, by decide,
    enqueue_capacity_C5 5 1 200 "a" "b" "c" "t0" oneJobState
      (by decide) (by decide) (by decide) (by decide) (by decide)⟩

/-- A timestamp reading under which both worker timestamps parse. -/
def parse1 : String → Option Rat :=
  fun t => if t = "t1" then some 1 else if t = "t2" then some (5 / 2) else none

/-- C3: evaluation of one worker iteration on a concrete queued job in each
of the three Extractor outcomes.  Finalization behaves as claimed —
`finishedAt` and `lastUpdated` are set, the duration is stored (rounded)
when both timestamps parse and silently omitted when they do not — but the
queue item is marked consumed exactly once only on success and failure: the
cancellation path calls `task_done()` twice (`app.py` line 104 and again in
the `finally` block at line 126). -/
theorem worker_taskdone_C3 :
    (worker_loop 200 .item (.ok "res") parse0 "t1" "t2" "t3" 1 oneJobState).taskDoneCalls = 1 ∧
    (worker_loop 200 .item (.exn "boom") parse0 "t1" "t2" "t3" 1 oneJobState).taskDoneCalls = 1 ∧
    (worker_loop 200 .item .cancelled parse0 "t1" "t2" "t3" 1 oneJobState).taskDoneCalls = 2 ∧
    Option.map JobRecord.finishedAt
        (worker_loop 200 .item .cancelled parse0 "t1" "t2" "t3" 1 oneJobState).finalRecord =
      some (some "t2") ∧
    Option.map JobRecord.lastUpdated
        (worker_loop 200 .item .cancelled parse0 "t1" "t2" "t3" 1 oneJobState).finalRecord =
      some (some "t3") ∧
    Option.map JobRecord.durationSeconds
        (worker_loop 200 .item .cancelled parse0 "t1" "t2" "t3" 1 oneJobState).finalRecord =
      some none ∧
    Option.map JobRecord.durationSeconds
        (worker_loop 200 .item (.ok "res") parse1 "t1" "t2" "t3" 1 oneJobState).finalRecord =
      some (some (3 / 2)) := by
  have hv : roundMilli (5 / 2 - 1) = 3 / 2 := by
    have h1 : ((5 : Rat) / 2 - 1) = 3 / 2 := by norm_num
    have h2 : ((3 : Rat) / 2 * 1000) = 1500 := by norm_num
    unfold roundMilli ratRound
    rw [h1, h2]
    have h3 : (1500 : Rat).num = 1500 := by norm_num
    have h4 : ((1500 : Rat).den : Int) = 1 := by norm_num [Rat.den_ofNat]
    rw [h3, h4]
    have h5 : Int.fdiv (2 * 1500 + 1) (2 * 1) = 1500 := by decide
    rw [h5]
    norm_num
  refine ⟨by decide, by decide, by decide, by decide, by decide, by decide, ?_⟩
  simp [worker_loop, oneJobState, recQueued, parse1, finalizeRecord, hv]

/-- C7 counterexample: the error message recorded on cancellation is
`"Worker stopped during execution"` (capital W), not the
`"worker stopped during execution"` stated by the claim. -/
theorem worker_cancel_message_C7_cex :
    Option.map JobRecord.error
        (worker_loop 200 .item .cancelled parse0 "t1" "t2" "t3" 1 oneJobState).finalRecord =
      some (some "Worker stopped during execution") ∧
    "Worker stopped during execution" ≠ "worker stopped during execution" := by
  exact ⟨by decide, by decide⟩

/-- C7 (amended): when the in-flight Extractor call is interrupted by the
shutdown cancellation, the record ends `cancelled` with error
`"Worker stopped during execution"` (capital W), and the cancellation is
re-raised so the iteration propagates it instead of continuing the loop. -/
theorem worker_cancelled_C7 (maxHistory : Nat) (parse : String → Option Rat)
    (tStart tFinish tLast : String) (w : Nat) (s : ServerState)
    (p : JobPayload) (rest : List JobPayload) (r0 : JobRecord)
    (hq : s.jobQueue = p :: rest) (hr : s.jobs p.job_id = some r0) :
    ∃ r, (worker_loop maxHistory .item .cancelled parse
            tStart tFinish tLast w s).finalRecord = some r ∧
      r.status = .cancelled ∧
      r.error = some "Worker stopped during execution" ∧
      r.finishedAt = some tFinish ∧
      (worker_loop maxHistory .item .cancelled parse
          tStart tFinish tLast w s).exit = .propagateCancel := by
  obtain ⟨queue, jobs, hist, nid⟩ := s
  simp only at hq hr
  subst hq
  refine ⟨finalizeRecord parse tLast { r0 with
      status := .cancelled,
      startedAt := some tStart,
      assignedWorker := some w,
      queueSizeWhenStarted := some rest.length,
      error := some "Worker stopped during execution",
      finishedAt := some tFinish }, ?_, ?_, ?_, ?_, ?_⟩
  · simp only [worker_loop, hr]
  · rw [(finalizeRecord_fields parse tLast _).1]
  · rw [(finalizeRecord_fields parse tLast _).2.2.1]
  · rw [(finalizeRecord_fields parse tLast _).2.2.2.2.1]
  · simp only [worker_loop, hr]

/-- Witness for the amended cancellation theorem on the one-job state. -/
theorem worker_cancelled_C7_witness :
    oneJobState.jobQueue = [⟨0, "a", "b", "c"⟩] ∧
    oneJobState.jobs 0 = some recQueued ∧
    (∃ r, (worker_loop 200 .item .cancelled parse0
            "t1" "t2" "t3" 1 oneJobState).finalRecord = some r ∧
      r.status = .cancelled ∧
      r.error = some "Worker stopped during execution" ∧
      r.finishedAt = some "t2" ∧
      (worker_loop 200 .item .cancelled parse0
          "t1" "t2" "t3" 1 oneJobState).exit = .propagateCancel) :=
  ⟨rfl, rfl,
    worker_cancelled_C7 200 parse0 "t1" "t2" "t3" 1 oneJobState
      ⟨0, "a", "b", "c"⟩ [] recQueued rfl rfl⟩

/-- C6: a normal Extractor return ends the record `succeeded` with the
returned value and a null error; an ordinary raised failure ends it `failed`
with the message string and no result.  In both cases the iteration ends
with `continueLoop` — the worker result carries no HTTP response at all, so
the failure can never surface on the already-answered submission call. -/
theorem worker_outcome_C6 (maxHistory : Nat) (parse : String → Option Rat)
    (tStart tFinish tLast : String) (w : Nat) (s : ServerState)
    (p : JobPayload) (rest : List JobPayload) (r0 : JobRecord)
    (hq : s.jobQueue = p :: rest) (hr : s.jobs p.job_id = some r0)
    (hres : r0.result = none) :
    (∀ v, ∃ r, (worker_loop maxHistory .item (.ok v) parse
            tStart tFinish tLast w s).finalRecord = some r ∧
      r.status = .succeeded ∧ r.result = some v ∧ r.error = none ∧
      (worker_loop maxHistory .item (.ok v) parse
          tStart tFinish tLast w s).exit = .continueLoop) ∧
    (∀ msg, ∃ r, (worker_loop maxHistory .item (.exn msg) parse
            tStart tFinish tLast w s).finalRecord = some r ∧
      r.status = .failed ∧ r.error = some msg ∧ r.result = none ∧
      (worker_loop maxHistory .item (.exn msg) parse
          tStart tFinish tLast w s).exit = .continueLoop) := by
  obtain ⟨queue, jobs, hist, nid⟩ := s
  simp only at hq hr
  subst hq
  constructor
  · intro v
    refine ⟨finalizeRecord parse tLast { r0 with
        status := .succeeded,
        startedAt := some tStart,
        assignedWorker := some w,
        queueSizeWhenStarted := some rest.length,
        result := some v,
        error := none,
        finishedAt := some tFinish }, ?_, ?_, ?_, ?_, ?_⟩
    · simp only [worker_loop, hr]
    · rw [(finalizeRecord_fields parse tLast _).1]
    · rw [(finalizeRecord_fields parse tLast _).2.1]
    · rw [(finalizeRecord_fields parse tLast _).2.2.1]
    · simp only [worker_loop, hr]
  · intro msg
    refine ⟨finalizeRecord parse tLast { r0 with
        status := .failed,
        startedAt := some tStart,
        assignedWorker := some w,
        queueSizeWhenStarted := some rest.length,
        error := some msg,
        finishedAt := some tFinish }, ?_, ?_, ?_, ?_, ?_⟩
    · simp only [worker_loop, hr]
    · rw [(finalizeRecord_fields parse tLast _).1]
    · rw [(finalizeRecord_fields parse tLast _).2.2.1]
    · rw [(finalizeRecord_fields parse tLast _).2.1]
      exact hres
    · simp only [worker_loop, hr]

/-- Witness for the worker outcome theorem on the one-job state. -/
theorem worker_outcome_C6_witness :
    oneJobState.jobQueue = [⟨0, "a", "b", "c"⟩] ∧
    oneJobState.jobs 0 = some recQueued ∧
    recQueued.result = none ∧
    (∃ r, (worker_loop 200 .item (.ok "payload") parse0
            "t1" "t2" "t3" 1 oneJobState).finalRecord = some r ∧
      r.status = .succeeded ∧ r.result = some "payload" ∧ r.error = none ∧
      (worker_loop 200 .item (.ok "payload") parse0
          "t1" "t2" "t3" 1 oneJobState).exit = .continueLoop) :=
  ⟨rfl, rfl, rfl,
    (worker_outcome_C6 200 parse0 "t1" "t2" "t3" 1 oneJobState
      ⟨0, "a", "b", "c"⟩ [] recQueued rfl rfl rfl).1 "payload"⟩

/-- C1: a submission that passes validation and the capacity check is
accepted: the fresh id taken from the supply is not yet in the store
(uniqueness of the id supply is expressed by the `hFresh` bound, which the
operation re-establishes for the bumped counter), the queued record with the
pre-enqueue depth snapshot is created and survives the pruner invocation,
the id is appended at the end of history and the resulting state is exactly
the pruner applied to that appended history, the payload (with stripped
email/nickname) is pushed at the back of the work queue, and the response
carries the id, `queued`, the submission timestamp, depth+1, and the worker
capacity. -/
theorem enqueue_accept_C1 (maxWorkers queueLimit maxHistory : Nat)
    (emailRaw passwordRaw excludeRaw now : String) (s : ServerState)
    (hE : pyStrip emailRaw ≠ "") (hP : passwordRaw ≠ "")
    (hX : pyStrip excludeRaw ≠ "")
    (hCap : queueLimit = 0 ∨ s.jobQueue.length < queueLimit)
    (hFresh : ∀ i, (s.jobs i).isSome → i < s.nextId) :
    (enqueue_scrape maxWorkers queueLimit maxHistory
        emailRaw passwordRaw excludeRaw now s).1 =
      .ok { jobId := s.nextId, status := .queued, submittedAt := now,
            queueSize := s.jobQueue.length + 1, maxConcurrency := maxWorkers } ∧
    s.jobs s.nextId = none ∧
    (enqueue_scrape maxWorkers queueLimit maxHistory
        emailRaw passwordRaw excludeRaw now s).2.jobQueue =
      s.jobQueue ++ [JobPayload.mk s.nextId (pyStrip emailRaw) passwordRaw (pyStrip excludeRaw)] ∧
    (enqueue_scrape maxWorkers queueLimit maxHistory
        emailRaw passwordRaw excludeRaw now s).2.nextId = s.nextId + 1 ∧
    ((enqueue_scrape maxWorkers queueLimit maxHistory
        emailRaw passwordRaw excludeRaw now s).2.jobHistory,
     (enqueue_scrape maxWorkers queueLimit maxHistory
        emailRaw passwordRaw excludeRaw now s).2.jobs) =
      _prune_history maxHistory (s.jobHistory ++ [s.nextId])
        (setJob s.jobs s.nextId
          { status := .queued, submittedAt := now,
            queueSizeOnEnqueue := s.jobQueue.length }) ∧
    (enqueue_scrape maxWorkers queueLimit maxHistory
        emailRaw passwordRaw excludeRaw now s).2.jobs s.nextId =
      some { status := .queued, submittedAt := now,
             queueSizeOnEnqueue := s.jobQueue.length } ∧
    s.nextId ∈ (enqueue_scrape maxWorkers queueLimit maxHistory
        emailRaw passwordRaw excludeRaw now s).2.jobHistory ∧
    (∀ i, ((enqueue_scrape maxWorkers queueLimit maxHistory
        emailRaw passwordRaw excludeRaw now s).2.jobs i).isSome →
      i < (enqueue_scrape maxWorkers queueLimit maxHistory
        emailRaw passwordRaw excludeRaw now s).2.nextId) := by
  have hcond1 : ¬(pyStrip emailRaw = "" ∨ passwordRaw = "" ∨ pyStrip excludeRaw = "") :=
    not_or.mpr ⟨hE, not_or.mpr ⟨hP, hX⟩⟩
  have hcond2 : ¬(queueLimit ≠ 0 ∧ s.jobQueue.length ≥ queueLimit) := by
    rcases hCap with h0 | hlt
    · exact fun hc => hc.1 h0
    · exact fun hc => absurd hc.2 (by omega)
  have heq : enqueue_scrape maxWorkers queueLimit maxHistory
      emailRaw passwordRaw excludeRaw now s =
    (.ok { jobId := s.nextId, status := .queued, submittedAt := now,
           queueSize := (s.jobQueue ++
             [JobPayload.mk s.nextId (pyStrip emailRaw) passwordRaw (pyStrip excludeRaw)]).length,
           maxConcurrency := maxWorkers },
     { jobQueue := s.jobQueue ++
         [JobPayload.mk s.nextId (pyStrip emailRaw) passwordRaw (pyStrip excludeRaw)]
       jobs := (_prune_history maxHistory (s.jobHistory ++ [s.nextId])
         (setJob s.jobs s.nextId
           { status := .queued, submittedAt := now,
             queueSizeOnEnqueue := s.jobQueue.length })).2
       jobHistory := (_prune_history maxHistory (s.jobHistory ++ [s.nextId])
         (setJob s.jobs s.nextId
           { status := .queued, submittedAt := now,
             queueSizeOnEnqueue := s.jobQueue.length })).1
       nextId := s.nextId + 1 }) := by
    simp only [enqueue_scrape]
    rw [if_neg hcond1, if_neg hcond2]
  have hself : setJob s.jobs s.nextId
      { status := .queued, submittedAt := now,
        queueSizeOnEnqueue := s.jobQueue.length } s.nextId =
      some { status := .queued, submittedAt := now,
             queueSizeOnEnqueue := s.jobQueue.length } := by
    simp [setJob]
  have hkeep := prune_keeps_nonterminal maxHistory (s.jobHistory ++ [s.nextId])
    (setJob s.jobs s.nextId
      { status := .queued, submittedAt := now,
        queueSizeOnEnqueue := s.jobQueue.length })
    s.nextId
    { status := .queued, submittedAt := now,
      queueSizeOnEnqueue := s.jobQueue.length }
    hself rfl
  refine ⟨?_, ?_, ?_, ?_, ?_, ?_, ?_, ?_⟩
  · rw [heq]
    simp
  · cases hj : s.jobs s.nextId with
    | none => rfl
    | some r =>
      exact absurd (hFresh s.nextId (by simp [hj])) (lt_irrefl _)
  · rw [heq]
  · rw [heq]
  · rw [heq]
  · rw [heq]
    exact hkeep.1
  · rw [heq]
    exact hkeep.2 (by simp)
  · intro i hi
    rw [heq] at hi ⊢
    show i < s.nextId + 1
    obtain ⟨r, hr⟩ := Option.isSome_iff_exists.mp hi
    have hsub := prune_submap _ _ _ _ _ hr
    simp only [setJob] at hsub
    by_cases hid : i = s.nextId
    · omega
    · rw [if_neg hid] at hsub
      have := hFresh i (by simp [hsub])
      omega

/-- Witness: the acceptance theorem applied to the empty initial state. -/
theorem enqueue_accept_C1_witness :
    pyStrip "a" ≠ "" ∧ ("b" : String) ≠ "" ∧ pyStrip "c" ≠ "" ∧
    ((50 : Nat) = 0 ∨ initState.jobQueue.length < 50) ∧
    (enqueue_scrape 5 50 200 "a" "b" "c" "t0" initState).1 =
      .ok { jobId := 0, status := .queued, submittedAt := "t0",
            queueSize := 1, maxConcurrency := 5 } :=
  ⟨by decide, by decide, by decide, Or.inr (by decide),
    (enqueue_accept_C1 5 50 200 "a" "b" "c" "t0" initState
      (by decide) (by decide) (by decide) (Or.inr (by decide))
      (fun i h => absurd h (by simp [initState]))).1⟩

/-- Membership in the projection of one optional record field: the key must
match and the field must hold a value. -/
theorem optField_mem {α : Type} (k : String) (f : α → SnapVal) (o : Option α)
    (k2 : String) (w : SnapVal) :
    (k2, w) ∈ optField k f o ↔ (k2 = k ∧ ∃ v, o = some v ∧ w = f v) := by
  cases o with
  | none => simp [optField]
  | some v => simp [optField, Prod.ext_iff]

/-- C8: the status query `get_job`.  On a stored id the snapshot holds the id
and the current queue depth, the always-valued fields (`status`,
`submittedAt`, `queueSizeOnEnqueue`), and each optional field exactly when
the record has a value for it, with no other keys; on an id missing from the
store — never issued or since pruned — the result is one and the same
404 error in both cases. -/
theorem get_job_C8 (s s2 : ServerState) (id id2 : Nat) :
    (s.jobs id = none → get_job id s = .error (404, "Job not found.")) ∧
    (s.jobs id = none → s2.jobs id2 = none → get_job id s = get_job id2 s2) ∧
    (∀ r l, s.jobs id = some r → get_job id s = .ok l →
      ("jobId", SnapVal.nat id) ∈ l ∧
      ("queueSize", SnapVal.nat s.jobQueue.length) ∈ l ∧
      ("status", SnapVal.stat r.status) ∈ l ∧
      ("submittedAt", SnapVal.str r.submittedAt) ∈ l ∧
      ("queueSizeOnEnqueue", SnapVal.nat r.queueSizeOnEnqueue) ∈ l ∧
      (∀ w, ("startedAt", w) ∈ l ↔ ∃ v, r.startedAt = some v ∧ w = SnapVal.str v) ∧
      (∀ w, ("finishedAt", w) ∈ l ↔ ∃ v, r.finishedAt = some v ∧ w = SnapVal.str v) ∧
      (∀ w, ("result", w) ∈ l ↔ ∃ v, r.result = some v ∧ w = SnapVal.str v) ∧
      (∀ w, ("error", w) ∈ l ↔ ∃ v, r.error = some v ∧ w = SnapVal.str v) ∧
      (∀ w, ("assignedWorker", w) ∈ l ↔
        ∃ v, r.assignedWorker = some v ∧ w = SnapVal.nat v) ∧
      (∀ w, ("queueSizeWhenStarted", w) ∈ l ↔
        ∃ v, r.queueSizeWhenStarted = some v ∧ w = SnapVal.nat v) ∧
      (∀ w, ("durationSeconds", w) ∈ l ↔
        ∃ v, r.durationSeconds = some v ∧ w = SnapVal.rat v) ∧
      (∀ w, ("lastUpdated", w) ∈ l ↔ ∃ v, r.lastUpdated = some v ∧ w = SnapVal.str v) ∧
      (∀ k w, (k, w) ∈ l → k ∈ ["status", "submittedAt", "startedAt", "finishedAt",
        "result", "error", "queueSizeOnEnqueue", "assignedWorker",
        "queueSizeWhenStarted", "durationSeconds", "lastUpdated", "jobId", "queueSize"])) := by
  refine ⟨?_, ?_, ?_⟩
  · intro h
    simp [get_job, h]
  · intro h1 h2
    simp [get_job, h1, h2]
  · intro r l hr hl
    simp only [get_job, hr] at hl
    cases hl
    refine ⟨by simp, by simp, by simp [snapshotFields], by simp [snapshotFields],
      by simp [snapshotFields], ?_, ?_, ?_, ?_, ?_, ?_, ?_, ?_, ?_⟩
    · intro w
      simp [snapshotFields, optField_mem]
    · intro w
      simp [snapshotFields, optField_mem]
    · intro w
      simp [snapshotFields, optField_mem]
    · intro w
      simp [snapshotFields, optField_mem]
    · intro w
      simp [snapshotFields, optField_mem]
    · intro w
      simp [snapshotFields, optField_mem]
    · intro w
      simp [snapshotFields, optField_mem]
    · intro w
      simp [snapshotFields, optField_mem]
    · intro k w h
      simp only [List.mem_append, List.mem_cons, List.mem_singleton,
        optField_mem, snapshotFields, Prod.mk.injEq, List.not_mem_nil, or_false] at h
      simp only [List.mem_cons, List.mem_singleton, List.not_mem_nil, or_false]
      aesop

/-- The snapshot returned for the single queued job of `oneJobState`. -/
def snapC8 : List (String × SnapVal) :=
  [("status", SnapVal.stat Status.queued), ("submittedAt", SnapVal.str "t0"),
   ("queueSizeOnEnqueue", SnapVal.nat 0), ("jobId", SnapVal.nat 0),
   ("queueSize", SnapVal.nat 1)]

/-- Witness: the status-query theorem applied to the one-job state. -/
theorem get_job_C8_witness :
    oneJobState.jobs 0 = some recQueued ∧
    get_job 0 oneJobState = .ok snapC8 ∧
    ("jobId", SnapVal.nat 0) ∈ snapC8 :=
  ⟨rfl, rfl,
    ((get_job_C8 oneJobState oneJobState 0 0).2.2 recQueued snapC8 rfl rfl).1⟩

/-- Mutual exclusivity of `result` and `error` on one record: a result is
present only on `succeeded`, an error only on `failed` or `cancelled` —
hence both absent on the non-terminal `queued` and `running` statuses. -/
def recordWF (r : JobRecord) : Prop :=
  (r.result.isSome → r.status = Status.succeeded) ∧
  (r.error.isSome → r.status = Status.failed ∨ r.status = Status.cancelled)

/-- Every record of a store satisfies `recordWF`. -/
def storeWF (jobs : Nat → Option JobRecord) : Prop :=
  ∀ id r, jobs id = some r → recordWF r

/-- The duration/`lastUpdated` finalization never touches `status`,
`result` or `error`, so it preserves `recordWF`. -/
theorem recordWF_finalizeRecord (parse : String → Option Rat) (t : String)
    (r : JobRecord) (h : recordWF r) : recordWF (finalizeRecord parse t r) := by
  constructor
  · intro hx
    rw [(finalizeRecord_fields parse t r).2.1] at hx
    rw [(finalizeRecord_fields parse t r).1]
    exact h.1 hx
  · intro hx
    rw [(finalizeRecord_fields parse t r).2.2.1] at hx
    rw [(finalizeRecord_fields parse t r).1]
    exact h.2 hx

/-- C9: `recordWF` (result only on success, error only on failure or
cancellation, both absent while non-terminal) holds of every record after
each operation — admission, one worker iteration, and pruning — provided it
held before and, for the worker, every payload still in the queue points at
a record that is still `queued` (true of every reachable state, since a
payload is enqueued together with its fresh queued record). -/
theorem record_invariant_C9 (maxWorkers queueLimit maxHistory : Nat)
    (emailRaw passwordRaw excludeRaw now : String)
    (get : GetOutcome) (outcome : ExtractOutcome) (parse : String → Option Rat)
    (tStart tFinish tLast : String) (w : Nat) (hist : List Nat)
    (s : ServerState) (hwf : storeWF s.jobs)
    (hq : ∀ p ∈ s.jobQueue, ∀ r, s.jobs p.job_id = some r →
      r.status = Status.queued) :
    storeWF (enqueue_scrape maxWorkers queueLimit maxHistory
      emailRaw passwordRaw excludeRaw now s).2.jobs ∧
    storeWF (worker_loop maxHistory get outcome parse
      tStart tFinish tLast w s).state.jobs ∧
    storeWF (_prune_history maxHistory hist s.jobs).2 := by
  refine ⟨?_, ?_, ?_⟩
  · simp only [enqueue_scrape]
    split
    · exact hwf
    · split
      · exact hwf
      · intro id r h
        have hsub := prune_submap _ _ _ _ _ h
        simp only [setJob] at hsub
        by_cases hid : id = s.nextId
        · rw [if_pos hid] at hsub
          cases hsub
          exact ⟨fun hx => absurd hx (by simp), fun hx => absurd hx (by simp)⟩
        · rw [if_neg hid] at hsub
          exact hwf id r hsub
  · cases get with
    | cancelledWait => exact hwf
    | item =>
      obtain ⟨queue, jobs, hist2, nid⟩ := s
      simp only at hwf hq ⊢
      cases queue with
      | nil => exact hwf
      | cons p rest =>
        cases hjr : jobs p.job_id with
        | none =>
          simp only [worker_loop, hjr]
          exact hwf
        | some r0 =>
          have hr0q : r0.status = Status.queued :=
            hq p (by simp) r0 hjr
          have hr0 := hwf p.job_id r0 hjr
          have hres : r0.result = none := by
            cases hx : r0.result with
            | none => rfl
            | some v =>
              have := hr0.1 (by simp [hx])
              rw [hr0q] at this
              cases this
          cases outcome with
          | ok v =>
            simp only [worker_loop, hjr]
            intro id r h
            have hsub := prune_submap _ _ _ _ _ h
            simp only [setJob] at hsub
            by_cases hid : id = p.job_id
            · rw [if_pos hid] at hsub
              cases hsub
              refine recordWF_finalizeRecord parse tLast _ ?_
              exact ⟨fun _ => rfl, fun hx => absurd hx (by simp)⟩
            · rw [if_neg hid] at hsub
              exact hwf id r hsub
          | exn msg =>
            simp only [worker_loop, hjr]
            intro id r h
            have hsub := prune_submap _ _ _ _ _ h
            simp only [setJob] at hsub
            by_cases hid : id = p.job_id
            · rw [if_pos hid] at hsub
              cases hsub
              refine recordWF_finalizeRecord parse tLast _ ?_
              refine ⟨fun hx => absurd hx ?_, fun _ => Or.inl rfl⟩
              simp [hres]
            · rw [if_neg hid] at hsub
              exact hwf id r hsub
          | cancelled =>
            simp only [worker_loop, hjr]
            intro id r h
            have hsub := prune_submap _ _ _ _ _ h
            simp only [setJob] at hsub
            by_cases hid : id = p.job_id
            · rw [if_pos hid] at hsub
              cases hsub
              refine recordWF_finalizeRecord parse tLast _ ?_
              refine ⟨fun hx => absurd hx ?_, fun _ => Or.inr rfl⟩
              simp [hres]
            · rw [if_neg hid] at hsub
              exact hwf id r hsub
  · intro id r h
    exact hwf id r (prune_submap _ _ _ _ _ h)

/-- Witness: the record invariant theorem applied to the one-job state. -/
theorem record_invariant_C9_witness :
    storeWF oneJobState.jobs ∧
    storeWF (worker_loop 200 .item (.ok "res") parse0
      "t1" "t2" "t3" 1 oneJobState).state.jobs := by
  have hwf : storeWF oneJobState.jobs := by
    intro id r h
    by_cases hid : id = 0
    · subst hid
      simp only [oneJobState, if_pos rfl] at h
      cases h
      exact ⟨fun hx => absurd hx (by decide), fun hx => absurd hx (by decide)⟩
    · simp only [oneJobState, if_neg hid] at h
      cases h
  have hq : ∀ p ∈ oneJobState.jobQueue, ∀ r,
      oneJobState.jobs p.job_id = some r → r.status = Status.queued := by
    intro p hp r h
    simp only [oneJobState, List.mem_singleton] at hp
    subst hp
    simp only [oneJobState, if_pos rfl] at h
    cases h
    rfl
  exact ⟨hwf,
    (record_invariant_C9 5 50 200 "a" "b" "c" "t0" .item (.ok "res") parse0
      "t1" "t2" "t3" 1 [] oneJobState hwf hq).2.1⟩

/-- The store/history coupling invariant: an id is in the store exactly when
it is in history; history ids are strictly increasing (the order the counter
issued them, i.e. submission order — hence no duplicates); and every id in
history is below the id supply counter. -/
def histInv (s : ServerState) : Prop :=
  (∀ id, (s.jobs id).isSome ↔ id ∈ s.jobHistory) ∧
  s.jobHistory.Pairwise (fun a b => a < b) ∧
  (∀ id, id ∈ s.jobHistory → id < s.nextId)

/-- Pruning a store/history pair that is in bijection with strictly
increasing history yields a pair with the same properties, and the surviving
history is a subset of the original. -/
theorem histInv_prune (m : Nat) (hist : List Nat)
    (jobs : Nat → Option JobRecord)
    (hkeys : ∀ i, (jobs i).isSome ↔ i ∈ hist)
    (hpw : hist.Pairwise (fun a b => a < b)) :
    (∀ i, ((_prune_history m hist jobs).2 i).isSome ↔
      i ∈ (_prune_history m hist jobs).1) ∧
    (_prune_history m hist jobs).1.Pairwise (fun a b => a < b) ∧
    (∀ i, i ∈ (_prune_history m hist jobs).1 → i ∈ hist) := by
  have hnd : hist.Nodup := hpw.imp (fun h => Nat.ne_of_lt h)
  refine ⟨prune_keysEq m hist jobs hkeys hnd, ?_, ?_⟩
  · obtain ⟨k, hk⟩ := prune_drop m hist jobs
    rw [hk]
    exact hpw.sublist (List.drop_sublist k hist)
  · intro i hi
    obtain ⟨k, hk⟩ := prune_drop m hist jobs
    rw [hk] at hi
    exact List.mem_of_mem_drop hi

/-- Updating an existing record in place and then pruning preserves the
store/history bijection, the strict ordering, and the counter bound. -/
theorem histInv_worker_update (m : Nat) (jobs : Nat → Option JobRecord)
    (hist2 : List Nat) (nid pid : Nat) (r0 r3 : JobRecord)
    (hjr : jobs pid = some r0)
    (hkeys : ∀ i, (jobs i).isSome ↔ i ∈ hist2)
    (hpw : hist2.Pairwise (fun a b => a < b))
    (hbound : ∀ id, id ∈ hist2 → id < nid) :
    (∀ i, ((_prune_history m hist2 (setJob jobs pid r3)).2 i).isSome ↔
      i ∈ (_prune_history m hist2 (setJob jobs pid r3)).1) ∧
    (_prune_history m hist2 (setJob jobs pid r3)).1.Pairwise (fun a b => a < b) ∧
    (∀ id, id ∈ (_prune_history m hist2 (setJob jobs pid r3)).1 → id < nid) := by
  have hkeys1 : ∀ i, (setJob jobs pid r3 i).isSome ↔ i ∈ hist2 := by
    intro i
    by_cases hid : i = pid
    · subst hid
      simp only [setJob, if_pos rfl]
      rw [← hkeys]
      simp [hjr]
    · simp only [setJob, if_neg hid]
      exact hkeys i
  have h2 := histInv_prune m hist2 (setJob jobs pid r3) hkeys1 hpw
  exact ⟨h2.1, h2.2.1, fun id hid => hbound id (h2.2.2 id hid)⟩

/-- C10: the store keys and the history ids remain in bijection — created
together by admission, removed together by pruning, and never touched by a
worker update — with history strictly in the order ids were issued
(submission order, no duplicates) and bounded by the id counter, after each
of the three mutating operations; consequently membership in history always
implies the record still exists in the store. -/
theorem history_store_C10 (maxWorkers queueLimit maxHistory : Nat)
    (emailRaw passwordRaw excludeRaw now : String)
    (get : GetOutcome) (outcome : ExtractOutcome) (parse : String → Option Rat)
    (tStart tFinish tLast : String) (w : Nat)
    (s : ServerState) (hinv : histInv s) :
    histInv (enqueue_scrape maxWorkers queueLimit maxHistory
      emailRaw passwordRaw excludeRaw now s).2 ∧
    histInv (worker_loop maxHistory get outcome parse
      tStart tFinish tLast w s).state ∧
    histInv { s with
      jobHistory := (_prune_history maxHistory s.jobHistory s.jobs).1,
      jobs := (_prune_history maxHistory s.jobHistory s.jobs).2 } ∧
    s.jobHistory.Nodup ∧
    (∀ id, id ∈ s.jobHistory → ∃ r, s.jobs id = some r) := by
  obtain ⟨hkeys, hpw, hbound⟩ := hinv
  refine ⟨?_, ?_, ?_, ?_, ?_⟩
  · simp only [enqueue_scrape]
    split
    · exact ⟨hkeys, hpw, hbound⟩
    · split
      · exact ⟨hkeys, hpw, hbound⟩
      · have hkeys1 : ∀ i, (setJob s.jobs s.nextId
            { status := .queued, submittedAt := now,
              queueSizeOnEnqueue := s.jobQueue.length } i).isSome ↔
            i ∈ s.jobHistory ++ [s.nextId] := by
          intro i
          by_cases hid : i = s.nextId
          · subst hid
            simp [setJob]
          · simp only [setJob, if_neg hid]
            rw [hkeys i]
            simp [hid]
        have hpw1 : (s.jobHistory ++ [s.nextId]).Pairwise (fun a b => a < b) := by
          rw [List.pairwise_append]
          refine ⟨hpw, by simp, ?_⟩
          intro a ha b hb
          simp only [List.mem_singleton] at hb
          subst hb
          exact hbound a ha
        have h2 := histInv_prune maxHistory (s.jobHistory ++ [s.nextId])
          (setJob s.jobs s.nextId
            { status := .queued, submittedAt := now,
              queueSizeOnEnqueue := s.jobQueue.length }) hkeys1 hpw1
        refine ⟨h2.1, h2.2.1, ?_⟩
        intro id hid
        have hmem := h2.2.2 id hid
        simp only [List.mem_append, List.mem_singleton] at hmem
        rcases hmem with h | h
        · exact Nat.lt_succ_of_lt (hbound id h)
        · subst h
          exact Nat.lt_succ_self _
  · cases get with
    | cancelledWait => exact ⟨hkeys, hpw, hbound⟩
    | item =>
      obtain ⟨queue, jobs, hist2, nid⟩ := s
      simp only at hkeys hpw hbound ⊢
      cases queue with
      | nil => exact ⟨hkeys, hpw, hbound⟩
      | cons p rest =>
        cases hjr : jobs p.job_id with
        | none =>
          simp only [worker_loop, hjr]
          exact ⟨hkeys, hpw, hbound⟩
        | some r0 =>
          cases outcome with
          | ok v =>
            simp only [worker_loop, hjr]
            exact histInv_worker_update maxHistory jobs hist2 nid p.job_id r0 _
              hjr hkeys hpw hbound
          | exn msg =>
            simp only [worker_loop, hjr]
            exact histInv_worker_update maxHistory jobs hist2 nid p.job_id r0 _
              hjr hkeys hpw hbound
          | cancelled =>
            simp only [worker_loop, hjr]
            exact histInv_worker_update maxHistory jobs hist2 nid p.job_id r0 _
              hjr hkeys hpw hbound
  · have h2 := histInv_prune maxHistory s.jobHistory s.jobs hkeys hpw
    exact ⟨h2.1, h2.2.1, fun id hid => hbound id (h2.2.2 id hid)⟩
  · exact hpw.imp (fun h => Nat.ne_of_lt h)
  · intro id hid
    exact Option.isSome_iff_exists.mp ((hkeys id).mpr hid)

/-- Witness: the store/history invariant theorem applied to the one-job
state and a fresh submission on it. -/
theorem history_store_C10_witness :
    histInv oneJobState ∧
    histInv (enqueue_scrape 5 50 200 "a" "b" "c" "t0" oneJobState).2 := by
  have hinv : histInv oneJobState := by
    refine ⟨?_, ?_, ?_⟩
    · intro i
      by_cases hid : i = 0
      · subst hid
        simp [oneJobState]
      · simp [oneJobState, hid]
    · simp [oneJobState]
    · intro id hid
      simp only [oneJobState, List.mem_singleton] at hid
      subst hid
      decide
  exact ⟨hinv,
    (history_store_C10 5 50 200 "a" "b" "c" "t0" .item (.ok "x") parse0
      "t1" "t2" "t3" 1 oneJobState hinv).1⟩
